import Mathlib

/-!
Verification of the govital dependency-maintenance scanner
(`pkg/scanner/scanner.go` and collaborators) against its specification.

The Go code is shallowly embedded: pure helpers become Lean functions,
subprocess / filesystem / network outcomes become explicit environment
records, and the worker pool of `scanParallel` is modelled by the trace of
appends it performs (the channel is filled completely and then closed, each
buffered item is received by exactly one worker, and each reception performs
one locked append — so an execution is exactly an ordering of the input
items tagged with worker ids).  Machine integers are modelled as `Int`
(no overflow is relevant at these magnitudes); `time.Time` values are
modelled in whole hours as `Int`, with the zero value of `time.Time`
rendered as `Option.none`.
-/

namespace Govital

/-- One raw record decoded from the `go list -json -m all` stream
(`Scan`, scanner.go lines 141-145). -/
structure RawDep where
  path : String
  version : String
  main : Bool
deriving DecidableEq

/-- The per-dependency result record (`Dependency`, scanner.go lines 18-27).
`lastCommitTime` models `time.Time` in whole hours; `none` is the zero
value (`IsZero`). -/
structure Dependency where
  path : String
  version : String
  update : String
  latest : String
  error : String
  lastCommitTime : Option Int
  isActive : Bool
  daysSinceLastCommit : Int
deriving DecidableEq

/-- The aggregate result (`ScanResult` and its `Summary` block,
scanner.go lines 29-40), restricted to the fields the scan mutates. -/
structure Aggregate where
  dependencies : List Dependency
  total : Nat
  inactive : Nat
  errors : Nat
  staleThresholdDays : Int
deriving DecidableEq

/-- The scanner configuration snapshot (`Scanner` fields
`staleThresholdDays`, `includeIndirectDependencies`, `workers`,
scanner.go lines 42-49). -/
structure ScannerConfig where
  staleThresholdDays : Int
  includeIndirect : Bool
  workers : Nat
deriving DecidableEq

/-- Outcomes of the external calls made while resolving one dependency
(`getRepositoryInfo`, `getCommitTime`, scanner.go lines 244-342):
whether `go list`/`go mod download` on the module succeed (`repoInfoOk`),
whether `os.MkdirTemp` succeeds (`mkdirOk`), whether the shallow
`git clone` succeeds (`cloneOk`), and the commit hour delivered by a
successful `git show` + RFC3339 parse (`showResult`, `none` when either
fails).  `nowHours` is the wall clock at evaluation. -/
structure ResolveEnv where
  repoInfoOk : Bool
  mkdirOk : Bool
  cloneOk : Bool
  showResult : Option Int
  nowHours : Int

/-- Outcomes of the scan-level external calls (`Scan`, scanner.go lines
108-175): whether `go.mod` exists at the project root, the direct-set
lookup result (`none` when `go mod graph` fails, scanner.go lines
116-125), the decoded `go list -json -m all` stream (`none` when the
subprocess fails; a `none` element is a malformed record that the decoder
consumes, i.e. a well-formed JSON value of the wrong shape), and the
per-dependency resolution environment.  A record past which the decoder
never advances (a JSON-level error, which `json.Decoder` caches without
moving its read position) is outside this stream shape; that path is
modelled separately by the decode-loop machine (`decodeLoopStep`). -/
structure ScanEnv where
  goModExists : Bool
  directDepsResult : Option (List String)
  listResult : Option (List (Option RawDep))
  renv : Dependency → ResolveEnv

/-- Staleness policy (`Scanner.isStale`, scanner.go lines 69-71):
strictly more days than the threshold. -/
def isStale (staleThresholdDays daysSinceCommit : Int) : Bool :=
  decide (staleThresholdDays < daysSinceCommit)

/-- The suffix of a character list strictly after its last `'-'`, or
`none` when it has no `'-'`.  This is what the backwards loop of
`extractCommitHash` (scanner.go lines 80-88) isolates. -/
def suffixAfterLastDash : List Char → Option (List Char)
  | [] => none
  | c :: rest =>
      match suffixAfterLastDash rest with
      | some s => some s
      | none => if c = '-' then some rest else none

/-- Core of `Scanner.extractCommitHash` (scanner.go lines 74-90) on the
character list of the version string: require a leading `'v'`, find the
suffix after the final hyphen, and keep its last 12 characters when it
has at least 12; otherwise the empty string. -/
def extractCommitHashList (cs : List Char) : String :=
  match cs with
  | [] => ""
  | c :: parts =>
      if c = 'v' then
        match suffixAfterLastDash parts with
        | some suffix =>
            if 12 ≤ suffix.length then String.mk (suffix.drop (suffix.length - 12)) else ""
        | none => ""
      else ""

/-- `Scanner.extractCommitHash` (scanner.go lines 74-90). -/
def extractCommitHash (version : String) : String :=
  extractCommitHashList version.data

/-- `getCommitTime` (scanner.go lines 295-333): an empty commit hash yields
the current time with no error; a failed `os.MkdirTemp` is an error; a
failed clone falls through to `getCommitTimeViaHTTP` (lines 336-342) which
yields the current time with no error; a failed `git show` or timestamp
parse is an error; otherwise the parsed commit time.  On the error paths
the Go code also returns a time value, but the only caller discards it,
so `Except Unit Int` is the faithful shape. -/
def getCommitTime (env : ResolveEnv) (commitHash : String) : Except Unit Int :=
  if commitHash = "" then .ok env.nowHours
  else if env.mkdirOk = false then .error ()
  else if env.cloneOk = false then .ok env.nowHours
  else
    match env.showResult with
    | some t => .ok t
    | none => .error ()

/-- `Scanner.checkMaintenanceStatus` (scanner.go lines 215-241): a failed
repository-info lookup or commit-time lookup marks the dependency active
and leaves its record otherwise untouched; on success the record gets the
commit time and the truncated day count `int(hours/24)`, and is marked
inactive exactly when `isStale` holds.  (`getRepositoryInfo`, lines
244-292, on success always returns `extractCommitHash version` as the
hash and never inspects the clone URL further.) -/
def checkMaintenanceStatus (staleThresholdDays : Int) (env : ResolveEnv)
    (dep : Dependency) : Dependency :=
  if env.repoInfoOk = false then { dep with isActive := true }
  else
    match getCommitTime env (extractCommitHash dep.version) with
    | .error _ => { dep with isActive := true }
    | .ok t =>
        let days : Int := Int.tdiv (env.nowHours - t) 24
        let dep2 := { dep with lastCommitTime := some t, daysSinceLastCommit := days }
        if isStale staleThresholdDays days then { dep2 with isActive := false } else dep2

/-- The collection loop of `Scan` (scanner.go lines 138-167) on a stream
the decoder can traverse (every element either decodes or is a consumed
malformed value): a record that fails to decode increments the error
counter and is skipped; the main-module record is skipped; when indirect
dependencies are excluded, a path absent from the direct set is skipped;
every surviving record becomes a candidate `Dependency` with
`IsActive: true` and all other fields at their zero values.  Returns the
candidate list (in stream order) with the decode-error count.  The loop's
behaviour on a record past which the decoder never advances is modelled
by `decodeLoopStep` below. -/
def processRecords (includeIndirect : Bool) (directDeps : List String) :
    List (Option RawDep) → List Dependency × Nat
  | [] => ([], 0)
  | none :: rest =>
      let r := processRecords includeIndirect directDeps rest
      (r.1, r.2 + 1)
  | some dep :: rest =>
      let r := processRecords includeIndirect directDeps rest
      if dep.main then r
      else if includeIndirect = false ∧ dep.path ∉ directDeps then r
      else
        ({ path := dep.path, version := dep.version, update := "", latest := "",
           error := "", lastCommitTime := none, isActive := true,
           daysSinceLastCommit := 0 } :: r.1, r.2)

/-- One locked append in a worker (scanner.go lines 193-200): the record
is appended, `Total` is incremented, and `Inactive` is incremented when
the record is inactive — all under one mutex acquisition. -/
def appendRecord (agg : Aggregate) (dep : Dependency) : Aggregate :=
  { agg with
      dependencies := agg.dependencies ++ [dep],
      total := agg.total + 1,
      inactive := agg.inactive + (if dep.isActive then 0 else 1) }

/-- The observable effect of `scanParallel` (scanner.go lines 178-213)
under a given execution trace: the channel is filled with every candidate
and then closed, each buffered item is received by exactly one worker,
and each reception resolves the dependency and performs one locked
append.  A trace lists the appends in the order the mutex serialized
them, each tagged with the id of the worker that performed it. -/
def scanParallelExec (resolve : Dependency → Dependency) (agg : Aggregate)
    (trace : List (Nat × Dependency)) : Aggregate :=
  trace.foldl (fun a p => appendRecord a (resolve p.2)) agg

/-- A trace is a valid execution of `scanParallel` over `deps` with `w`
workers: the appended items are exactly the candidates, each consumed
once (channel semantics: no loss, no duplication), and every append was
performed by one of the `w` workers. -/
def IsExecution (w : Nat) (deps : List Dependency) (trace : List (Nat × Dependency)) : Prop :=
  List.Perm (trace.map Prod.snd) deps ∧ ∀ p ∈ trace, p.1 < w

instance (w : Nat) (deps : List Dependency) (trace : List (Nat × Dependency)) :
    Decidable (IsExecution w deps trace) := by
  unfold IsExecution
  infer_instance

/-- `Scanner.GetInactiveDependencies` (scanner.go lines 373-381): the
subsequence of records with `IsActive == false`, in aggregate order. -/
def GetInactiveDependencies (agg : Aggregate) : List Dependency :=
  agg.dependencies.filter (fun d => !d.isActive)

/-- The summary invariant of the aggregate (spec §3): `total` counts the
records and `inactive` counts the inactive records. -/
def AggInv (agg : Aggregate) : Prop :=
  agg.total = agg.dependencies.length
  ∧ agg.inactive = (agg.dependencies.filter (fun d => !d.isActive)).length

/-- `Scanner.Scan` (scanner.go lines 108-175) under a given environment
and worker trace: fail when `go.mod` is absent; on a failed direct-set
lookup fall back to the empty set (line 123); fail when the
`go list -json -m all` subprocess fails; otherwise collect the candidate
records and run the worker pool over them, starting from the empty
aggregate with the decode-error count and the configured threshold.
The trace argument selects one of the nondeterministic executions of
`scanParallel`; theorems restrict it with `IsExecution`. -/
def ScanExec (cfg : ScannerConfig) (env : ScanEnv)
    (trace : List (Nat × Dependency)) : Except String Aggregate :=
  if env.goModExists = false then .error "go.mod not found"
  else
    let directDeps : List String :=
      match env.directDepsResult with
      | some l => l
      | none => []
    match env.listResult with
    | none => .error "failed to list dependencies"
    | some raws =>
        let r := processRecords cfg.includeIndirect directDeps raws
        let agg0 : Aggregate :=
          { dependencies := [], total := 0, inactive := 0, errors := r.2,
            staleThresholdDays := cfg.staleThresholdDays }
        .ok (scanParallelExec
              (fun d => checkMaintenanceStatus cfg.staleThresholdDays (env.renv d) d)
              agg0 trace)

/-- The aggregate as `NewScanner` initializes it (scanner.go lines 51-66):
no records, zero counters, default threshold 30. -/
def emptyAggregate : Aggregate :=
  { dependencies := [], total := 0, inactive := 0, errors := 0, staleThresholdDays := 30 }

/-- A resolution environment in which every external call succeeds and the
commit is 100 days (2400 hours) before the current wall clock. -/
def sampleResolveEnv : ResolveEnv :=
  { repoInfoOk := true, mkdirOk := true, cloneOk := true,
    showResult := some 0, nowHours := 2400 }

/-- A candidate record as the collection loop of `Scan` creates it
(scanner.go lines 162-166). -/
def sampleCandidate : Dependency :=
  { path := "github.com/spf13/cobra", version := "v1.8.0", update := "", latest := "",
    error := "", lastCommitTime := none, isActive := true, daysSinceLastCommit := 0 }

/-- A second candidate record, used to exercise out-of-order completion. -/
def sampleCandidate2 : Dependency :=
  { path := "github.com/spf13/viper", version := "v1.18.2", update := "", latest := "",
    error := "", lastCommitTime := none, isActive := true, daysSinceLastCommit := 0 }

/-- A scan environment in which everything succeeds and the listing yields
two non-main records. -/
def sampleScanEnv : ScanEnv :=
  { goModExists := true,
    directDepsResult := some ["github.com/spf13/cobra", "github.com/spf13/viper"],
    listResult := some
      [some { path := "github.com/spf13/cobra", version := "v1.8.0", main := false },
       some { path := "github.com/spf13/viper", version := "v1.18.2", main := false }],
    renv := fun _ => sampleResolveEnv }

/-- The default configuration of `NewScanner` (scanner.go lines 58-65). -/
def sampleConfig : ScannerConfig :=
  { staleThresholdDays := 30, includeIndirect := false, workers := 4 }

/-- A candidate whose pseudo-version carries an extractable revision hash,
as the collection loop creates it. -/
def stalePoolCandidate : Dependency :=
  { path := "example.com/mod", version := "v0.0.0-20240101abcdef123456", update := "",
    latest := "", error := "", lastCommitTime := none, isActive := true,
    daysSinceLastCommit := 0 }

/-- The scan environment of the C1 scenario: `go.mod` exists, the
`go mod graph` direct-set lookup fails, and the listing yields one
non-main record. -/
def c1env : ScanEnv :=
  { goModExists := true, directDepsResult := none,
    listResult := some
      [some { path := "github.com/spf13/cobra", version := "v1.8.0", main := false }],
    renv := fun _ => sampleResolveEnv }

/-- Whether a scan result is a failure. -/
def scanFails (r : Except String Aggregate) : Bool :=
  match r with
  | .error _ => true
  | .ok _ => false

/-- A scan environment in which `go.mod` exists but the
`go list -json -m all` subprocess fails. -/
def c5env : ScanEnv :=
  { goModExists := true, directDepsResult := some [], listResult := none,
    renv := fun _ => sampleResolveEnv }

/-- A scan environment in which `go.mod` is absent. -/
def c5envNoMod : ScanEnv :=
  { goModExists := false, directDepsResult := some [], listResult := some [],
    renv := fun _ => sampleResolveEnv }

/-- A resolution environment in which the repository-info lookup fails. -/
def failingRepoEnv : ResolveEnv :=
  { repoInfoOk := false, mkdirOk := true, cloneOk := true, showResult := none,
    nowHours := 2400 }

/-- The default registry proxy endpoint. -/
def defaultGoProxyURL : String := "https://proxy.golang.org"

/-- Splits a character list at commas (the `,`-separated `GOPROXY` list). -/
def splitComma : List Char → List (List Char)
  | [] => [[]]
  | c :: rest =>
      if c = ',' then [] :: splitComma rest
      else
        match splitComma rest with
        | [] => [[c]]
        | g :: gs => (c :: g) :: gs

/-- Removes leading and trailing spaces from an entry. -/
def trimSpaces (l : List Char) : List Char :=
  ((l.dropWhile (fun c => c = ' ')).reverse.dropWhile (fun c => c = ' ')).reverse

/-- Removes one trailing slash from an endpoint. -/
def stripTrailingSlash (l : List Char) : List Char :=
  match l.reverse with
  | '/' :: rest => rest.reverse
  | _ => l

/-- Modelled from the spec: the registry-endpoint list parser
(`getGoProxyURLs`) is absent from `src/` — only its test
(`TestGetGoProxyURLs`, in the unnamed scanner test file) remains.  Spec
§4.3: a comma-separated ordered list of endpoints, each
trailing-slash-normalized; a literal "direct" entry is skipped; an empty
or entirely-"direct" list falls back to one default endpoint.  Entries
are trimmed (the test feeds an entry list with spaces around the comma)
and empty entries are dropped.  The spec's "URL-escaped" applies when the
metadata URL is built from an endpoint and a module path, not when the
endpoint list is parsed, so it is not part of this function. -/
def getGoProxyURLs (goproxy : String) : List String :=
  let entries := (splitComma goproxy.data).map trimSpaces
  let kept := entries.filter
    (fun e => decide (e ≠ [] ∧ e ≠ ['d', 'i', 'r', 'e', 'c', 't']))
  let eps := kept.map stripTrailingSlash
  if eps.isEmpty then [defaultGoProxyURL] else eps.map (fun l => String.mk l)

/-- One value in the `go list -json -m all` output as `json.Decoder`
treats it: `decoded dep` decodes and is consumed; `badConsumed` is a
well-formed JSON value of the wrong shape (`Decode` returns an
`UnmarshalTypeError` but the read position moves past the value);
`badStuck` is a JSON-level error — `Decode` stores the error in the
decoder (`dec.err`) and the read position does NOT advance, so every
later `Decode` returns the same cached error while `More()` (which only
peeks for the next non-space byte) keeps returning `true`. -/
inductive StreamItem where
  | decoded (dep : RawDep)
  | badConsumed
  | badStuck
deriving DecidableEq

/-- The candidate record as the collection loop creates it from a decoded
entry (scanner.go lines 162-166). -/
def mkCandidate (dep : RawDep) : Dependency :=
  { path := dep.path, version := dep.version, update := "", latest := "",
    error := "", lastCommitTime := none, isActive := true,
    daysSinceLastCommit := 0 }

/-- The state of the listing loop of `Scan` (scanner.go lines 140-167):
the unread remainder of the decoder's input, whether the decoder holds a
cached error, the candidates collected so far, the error counter, and
whether the loop has exited (`decoder.More()` returned `false`). -/
structure ListLoop where
  remaining : List StreamItem
  cachedErr : Bool
  candidates : List Dependency
  errors : Nat
  finished : Bool
deriving DecidableEq

/-- One iteration of the listing loop (scanner.go lines 140-167),
faithful to `json.Decoder`: when input remains, `More()` is `true` and
the loop body runs `Decode`; with a cached error, `Decode` returns it
without consuming anything, so the iteration only increments the error
counter (line 149) and `continue`s (line 150) — the state otherwise does
not change; a `badConsumed` value is consumed with the counter bumped; a
`badStuck` value caches the error without being consumed; a decoded
record is consumed and filtered exactly as in `processRecords`.  When no
input remains, `More()` is `false` and the loop exits. -/
def decodeLoopStep (ii : Bool) (dd : List String) (s : ListLoop) : ListLoop :=
  if s.finished then s
  else
    match s.remaining with
    | [] => { s with finished := true }
    | item :: rest =>
        if s.cachedErr then { s with errors := s.errors + 1 }
        else
          match item with
          | .badStuck => { s with cachedErr := true, errors := s.errors + 1 }
          | .badConsumed => { s with remaining := rest, errors := s.errors + 1 }
          | .decoded dep =>
              if dep.main then { s with remaining := rest }
              else if ii = false ∧ dep.path ∉ dd then { s with remaining := rest }
              else
                { s with
                    remaining := rest,
                    candidates := s.candidates ++ [mkCandidate dep] }

/-- Runs `n` iterations of the listing loop. -/
def decodeLoopRun (ii : Bool) (dd : List String) : Nat → ListLoop → ListLoop
  | 0, s => s
  | n + 1, s => decodeLoopRun ii dd n (decodeLoopStep ii dd s)

/-- The loop state on entry (scanner.go line 139): nothing read, no
cached error, no candidates, zero errors. -/
def decodeLoopStart (stream : List StreamItem) : ListLoop :=
  { remaining := stream, cachedErr := false, candidates := [], errors := 0,
    finished := false }

/-- A decode stream whose first value is one the decoder never advances
past, followed by a perfectly valid record. -/
def c6stream : List StreamItem :=
  [.badStuck,
   .decoded { path := "github.com/spf13/cobra", version := "v1.8.0", main := false }]

/-- A character list with no `'-'` has no suffix after a last dash. -/
lemma suffixAfterLastDash_eq_none {l : List Char} (h : '-' ∉ l) :
    suffixAfterLastDash l = none := by
  induction l with
  | nil => rfl
  | cons c rest ih =>
      have hc : c ≠ '-' := fun hc => h (hc ▸ List.mem_cons_self c rest)
      have hr : '-' ∉ rest := fun hr => h (List.mem_cons_of_mem c hr)
      simp [suffixAfterLastDash, ih hr, hc]

/-- When `suf` contains no `'-'`, the suffix after the last dash of
`p ++ '-' :: suf` is exactly `suf`. -/
lemma suffixAfterLastDash_append {p suf : List Char} (h : '-' ∉ suf) :
    suffixAfterLastDash (p ++ '-' :: suf) = some suf := by
  induction p with
  | nil =>
      simp [suffixAfterLastDash, suffixAfterLastDash_eq_none h]
  | cons c p ih =>
      simp [suffixAfterLastDash, ih]

/-- C3: for every threshold `T ≥ 0` and age `A`, `isStale` answers
`A > T`; a dependency exactly at the threshold is active and one day over
is inactive (scanner.go lines 69-71). -/
theorem C3_isStale_strict_threshold (T A : Int) (_hT : 0 ≤ T) :
    (isStale T A = true ↔ T < A) ∧ isStale T T = false ∧ isStale T (T + 1) = true := by
  refine ⟨?_, ?_, ?_⟩
  · simp [isStale]
  · simp [isStale]
  · simp [isStale]

/-- Witness for C3 at the default threshold 30. -/
theorem C3_isStale_strict_threshold_witness :
    (isStale 30 31 = true ↔ (30 : Int) < 31) ∧ isStale 30 30 = false ∧ isStale 30 31 = true :=
  C3_isStale_strict_threshold 30 31 (by decide)

/-- C7: `extractCommitHash` returns the last 12 characters of the suffix
after the final hyphen exactly when the version starts with `'v'` and that
suffix has at least 12 characters; it returns `""` when the version lacks
the leading `'v'`, has no hyphen after it, or the suffix is shorter than
12 characters (scanner.go lines 74-90). -/
theorem C7_extractCommitHash_cases (v : String) (p suf : List Char) :
    (v.data.head? ≠ some 'v' → extractCommitHash v = "")
    ∧ (v.data = 'v' :: (p ++ '-' :: suf) → '-' ∉ suf → 12 ≤ suf.length →
        extractCommitHash v = String.mk (suf.drop (suf.length - 12)))
    ∧ (v.data = 'v' :: (p ++ '-' :: suf) → '-' ∉ suf → suf.length < 12 →
        extractCommitHash v = "")
    ∧ (∀ rest : List Char, v.data = 'v' :: rest → '-' ∉ rest →
        extractCommitHash v = "") := by
  refine ⟨?_, ?_, ?_, ?_⟩
  · intro h
    unfold extractCommitHash
    match hd : v.data with
    | [] => rfl
    | c :: parts =>
        have hc : c ≠ 'v' := by
          intro hc
          exact h (by rw [hd, hc]; rfl)
        simp [extractCommitHashList, hc]
  · intro hd hsuf hlen
    unfold extractCommitHash
    rw [hd]
    simp [extractCommitHashList, suffixAfterLastDash_append hsuf, hlen]
  · intro hd hsuf hlen
    unfold extractCommitHash
    rw [hd]
    simp [extractCommitHashList, suffixAfterLastDash_append hsuf, Nat.not_le.mpr hlen]
  · intro rest hd hrest
    unfold extractCommitHash
    rw [hd]
    simp [extractCommitHashList, suffixAfterLastDash_eq_none hrest]

/-- Witness for C7 on the spec's examples. -/
theorem C7_extractCommitHash_cases_witness :
    extractCommitHash "v1.0.0-20240125abcdef123456" = "abcdef123456"
    ∧ extractCommitHash "v1.0.0" = ""
    ∧ extractCommitHash "1.0.0-20240125abcdef123456" = ""
    ∧ extractCommitHash "v1.0.0-abc" = "" := by
  refine ⟨?_, ?_, ?_, ?_⟩
  · exact ((C7_extractCommitHash_cases "v1.0.0-20240125abcdef123456" "1.0.0".data
      "20240125abcdef123456".data).2.1 (by decide) (by decide) (by decide)).trans (by decide)
  · exact (C7_extractCommitHash_cases "v1.0.0" [] []).2.2.2 "1.0.0".data (by decide) (by decide)
  · exact (C7_extractCommitHash_cases "1.0.0-20240125abcdef123456" [] []).1 (by decide)
  · exact (C7_extractCommitHash_cases "v1.0.0-abc" "1.0.0".data "abc".data).2.2.1
      (by decide) (by decide) (by decide)

/-- Once the decoder holds a cached error and input remains, every
iteration of the listing loop only increments the error counter: the
read position, the candidates and the exit flag never change again. -/
lemma decodeLoopRun_stuck (ii : Bool) (dd : List String) :
    ∀ (n : Nat) (s : ListLoop), s.finished = false → s.cachedErr = true →
      s.remaining ≠ [] →
      decodeLoopRun ii dd n s = { s with errors := s.errors + n } := by
  intro n
  induction n with
  | zero =>
      intro s _ _ _
      rfl
  | succ n ih =>
      intro s hfin hcached hrem
      have hstep : decodeLoopStep ii dd s = { s with errors := s.errors + 1 } := by
        unfold decodeLoopStep
        rw [if_neg (by simp [hfin])]
        cases hr : s.remaining with
        | nil => exact absurd hr hrem
        | cons item rest => simp [hcached]
      show decodeLoopRun ii dd n (decodeLoopStep ii dd s)
        = { s with errors := s.errors + (n + 1) }
      rw [hstep, ih { s with errors := s.errors + 1 } hfin hcached hrem]
      show ({ s with errors := s.errors + 1 + n } : ListLoop) = _
      rw [Nat.add_assoc, Nat.add_comm 1 n]

/-- C6 (code bug): on a stream whose first value the decoder cannot
advance past, the listing loop of `Scan` (scanner.go lines 140-151)
diverges.  `json.Decoder.Decode` caches the JSON-level error without
moving the read position, and `decoder.More()` only peeks for the next
non-space byte, so it stays `true`; every iteration then re-reads the
cached error, increments `Errors` and continues — after any number of
steps the loop has not exited, no candidate has been collected (the valid
record behind the bad value is never decoded), and the error counter has
grown without bound.  This contradicts the claim that the malformed
record is skipped, decoding continues and the loop terminates — behaviour
the loop body's `continue` (line 150) and the spec clearly intend, which
the last conjunct shows is delivered when the decoder consumes the
malformed value: that record alone is skipped with one counted error, the
following record still becomes a candidate, and the loop exits. -/
theorem C6_stuck_decoder_diverges :
    (∀ n : Nat, decodeLoopRun true [] (n + 1) (decodeLoopStart c6stream)
      = { remaining := c6stream, cachedErr := true, candidates := [],
          errors := n + 1, finished := false })
    ∧ decodeLoopRun true [] 3 (decodeLoopStart
        [.badConsumed,
         .decoded { path := "github.com/spf13/cobra", version := "v1.8.0", main := false }])
      = { remaining := [], cachedErr := false,
          candidates :=
            [mkCandidate { path := "github.com/spf13/cobra", version := "v1.8.0", main := false }],
          errors := 1, finished := true } := by
  constructor
  · intro n
    show decodeLoopRun true [] n (decodeLoopStep true [] (decodeLoopStart c6stream)) = _
    have hstep : decodeLoopStep true [] (decodeLoopStart c6stream)
        = { remaining := c6stream, cachedErr := true, candidates := [],
            errors := 1, finished := false } := by decide
    rw [hstep, decodeLoopRun_stuck true [] n _ rfl rfl (by decide)]
    rw [Nat.add_comm 1 n]
  · decide

/-- The record sequence produced by an execution of the worker pool is the
starting sequence followed by the resolved items in trace order. -/
lemma scanParallelExec_dependencies (resolve : Dependency → Dependency)
    (agg : Aggregate) (trace : List (Nat × Dependency)) :
    (scanParallelExec resolve agg trace).dependencies
      = agg.dependencies ++ trace.map (fun p => resolve p.2) := by
  induction trace generalizing agg with
  | nil => simp [scanParallelExec]
  | cons p trace ih =>
      show (scanParallelExec resolve (appendRecord agg (resolve p.2)) trace).dependencies = _
      rw [ih]
      simp [appendRecord]

/-- One locked append preserves the summary invariant. -/
lemma aggInv_appendRecord {agg : Aggregate} (d : Dependency) (h : AggInv agg) :
    AggInv (appendRecord agg d) := by
  obtain ⟨h1, h2⟩ := h
  constructor
  · simp [appendRecord, h1]
  · cases hd : d.isActive <;>
      simp [appendRecord, List.filter_append, h2, hd]

/-- Every execution of the worker pool preserves the summary invariant. -/
lemma aggInv_scanParallelExec (resolve : Dependency → Dependency)
    (trace : List (Nat × Dependency)) {agg : Aggregate} (h : AggInv agg) :
    AggInv (scanParallelExec resolve agg trace) := by
  induction trace generalizing agg with
  | nil => exact h
  | cons p trace ih => exact ih (aggInv_appendRecord _ h)

/-- A successful scan yields an aggregate satisfying the summary invariant. -/
lemma scanExec_ok_aggInv {cfg : ScannerConfig} {env : ScanEnv}
    {trace : List (Nat × Dependency)} {agg2 : Aggregate}
    (h : ScanExec cfg env trace = .ok agg2) : AggInv agg2 := by
  unfold ScanExec at h
  split at h
  · cases h
  · split at h
    all_goals
      split at h
      · cases h
      · cases h
        exact aggInv_scanParallelExec _ _ ⟨rfl, rfl⟩

/-- C2: under any execution of the worker pool — any worker count `w ≥ 1`,
any assignment of coordinates to workers, any append order — the final
record sequence has exactly one record per filtered input coordinate:
same length, and the records are precisely the resolved coordinates up to
permutation, none lost and none duplicated (scanner.go lines 178-213). -/
theorem C2_one_record_per_coordinate (w : Nat) (thr : Int)
    (renv : Dependency → ResolveEnv) (deps : List Dependency)
    (trace : List (Nat × Dependency)) (_hw : 1 ≤ w)
    (hex : IsExecution w deps trace) :
    (scanParallelExec (fun d => checkMaintenanceStatus thr (renv d) d)
        emptyAggregate trace).dependencies.length = deps.length
    ∧ List.Perm
        (scanParallelExec (fun d => checkMaintenanceStatus thr (renv d) d)
          emptyAggregate trace).dependencies
        (deps.map (fun d => checkMaintenanceStatus thr (renv d) d)) := by
  obtain ⟨hperm, _⟩ := hex
  have hdeps := scanParallelExec_dependencies
    (fun d => checkMaintenanceStatus thr (renv d) d) emptyAggregate trace
  have hmap : trace.map (fun p => checkMaintenanceStatus thr (renv p.2) p.2)
      = (trace.map Prod.snd).map (fun d => checkMaintenanceStatus thr (renv d) d) := by
    simp [List.map_map]
  constructor
  · rw [hdeps]
    simp only [emptyAggregate, List.nil_append, List.length_map]
    calc trace.length = (trace.map Prod.snd).length := (List.length_map _ _).symm
      _ = deps.length := hperm.length_eq
  · rw [hdeps]
    simp only [emptyAggregate, List.nil_append]
    rw [hmap]
    exact hperm.map _

/-- Witness for C2: two workers, two coordinates, completion in reversed
order by distinct workers. -/
theorem C2_one_record_per_coordinate_witness :
    (scanParallelExec
        (fun d => checkMaintenanceStatus 30 ((fun _ => sampleResolveEnv) d) d)
        emptyAggregate [(1, sampleCandidate2), (0, sampleCandidate)]).dependencies.length
      = [sampleCandidate, sampleCandidate2].length
    ∧ List.Perm
        (scanParallelExec
          (fun d => checkMaintenanceStatus 30 ((fun _ => sampleResolveEnv) d) d)
          emptyAggregate [(1, sampleCandidate2), (0, sampleCandidate)]).dependencies
        ([sampleCandidate, sampleCandidate2].map
          (fun d => checkMaintenanceStatus 30 ((fun _ => sampleResolveEnv) d) d)) :=
  C2_one_record_per_coordinate 2 30 (fun _ => sampleResolveEnv)
    [sampleCandidate, sampleCandidate2] [(1, sampleCandidate2), (0, sampleCandidate)]
    (by decide) (by constructor <;> decide)

/-- C8: the aggregate's summary satisfies `total = len(records)` and
`inactive = count(records where not isActive)`: both equalities are
preserved by every locked append (scanner.go lines 193-200), and they
hold of the aggregate of any completed scan, where the inactive counter
also equals the length of `GetInactiveDependencies` (scanner.go lines
373-381). -/
theorem C8_summary_invariants (agg : Aggregate) (d : Dependency)
    (resolve : Dependency → Dependency) (trace : List (Nat × Dependency))
    (cfg : ScannerConfig) (env : ScanEnv) (agg2 : Aggregate)
    (hinv : AggInv agg) (hscan : ScanExec cfg env trace = .ok agg2) :
    AggInv (appendRecord agg d)
    ∧ AggInv (scanParallelExec resolve agg trace)
    ∧ agg2.total = agg2.dependencies.length
    ∧ agg2.inactive = (GetInactiveDependencies agg2).length := by
  have h2 := scanExec_ok_aggInv hscan
  exact ⟨aggInv_appendRecord d hinv, aggInv_scanParallelExec resolve trace hinv,
    h2.1, h2.2⟩

/-- Witness for C8 on a concrete scan of the sample environment. -/
theorem C8_summary_invariants_witness :
    AggInv (appendRecord emptyAggregate sampleCandidate)
    ∧ AggInv (scanParallelExec (fun d => d) emptyAggregate
        [(0, sampleCandidate), (1, sampleCandidate2)])
    ∧ (scanParallelExec
        (fun d => checkMaintenanceStatus 30 (sampleScanEnv.renv d) d)
        { dependencies := [], total := 0, inactive := 0, errors := 0,
          staleThresholdDays := 30 }
        [(0, sampleCandidate), (1, sampleCandidate2)]).total
      = (scanParallelExec
          (fun d => checkMaintenanceStatus 30 (sampleScanEnv.renv d) d)
          { dependencies := [], total := 0, inactive := 0, errors := 0,
            staleThresholdDays := 30 }
          [(0, sampleCandidate), (1, sampleCandidate2)]).dependencies.length
    ∧ (scanParallelExec
        (fun d => checkMaintenanceStatus 30 (sampleScanEnv.renv d) d)
        { dependencies := [], total := 0, inactive := 0, errors := 0,
          staleThresholdDays := 30 }
        [(0, sampleCandidate), (1, sampleCandidate2)]).inactive
      = (GetInactiveDependencies
          (scanParallelExec
            (fun d => checkMaintenanceStatus 30 (sampleScanEnv.renv d) d)
            { dependencies := [], total := 0, inactive := 0, errors := 0,
              staleThresholdDays := 30 }
            [(0, sampleCandidate), (1, sampleCandidate2)])).length :=
  C8_summary_invariants emptyAggregate sampleCandidate (fun d => d)
    [(0, sampleCandidate), (1, sampleCandidate2)] sampleConfig sampleScanEnv
    (scanParallelExec
      (fun d => checkMaintenanceStatus 30 (sampleScanEnv.renv d) d)
      { dependencies := [], total := 0, inactive := 0, errors := 0,
        staleThresholdDays := 30 }
      [(0, sampleCandidate), (1, sampleCandidate2)])
    ⟨rfl, rfl⟩ rfl

/-- Every candidate produced by the collection loop of `Scan` carries
`IsActive: true` (scanner.go lines 162-166). -/
lemma mem_processRecords_isActive {ii : Bool} {dd : List String}
    {raws : List (Option RawDep)} {d : Dependency}
    (h : d ∈ (processRecords ii dd raws).1) : d.isActive = true := by
  induction raws with
  | nil => cases h
  | cons a raws ih =>
      cases a with
      | none => exact ih h
      | some dep =>
          revert h
          simp only [processRecords]
          by_cases hm : dep.main
          · rw [if_pos hm]; exact ih
          · rw [if_neg hm]
            by_cases hf : ii = false ∧ dep.path ∉ dd
            · rw [if_pos hf]; exact ih
            · rw [if_neg hf]
              intro h
              rcases List.mem_cons.mp h with h | h
              · rw [h]
              · exact ih h

/-- `checkMaintenanceStatus` either leaves the record untouched except for
forcing it active (the failure paths), or commits a successfully looked-up
time and applies the staleness policy to it. -/
lemma checkMaintenanceStatus_spec (thr : Int) (env : ResolveEnv) (dep : Dependency) :
    checkMaintenanceStatus thr env dep = { dep with isActive := true }
    ∨ (∃ t : Int,
        getCommitTime env (extractCommitHash dep.version) = .ok t
        ∧ checkMaintenanceStatus thr env dep =
            (let days := Int.tdiv (env.nowHours - t) 24
             let dep2 := { dep with lastCommitTime := some t, daysSinceLastCommit := days }
             if isStale thr days then { dep2 with isActive := false } else dep2)) := by
  unfold checkMaintenanceStatus
  by_cases hr : env.repoInfoOk = false
  · left
    rw [if_pos hr]
  · rw [if_neg hr]
    rcases hct : getCommitTime env (extractCommitHash dep.version) with e | t
    · left
      rfl
    · right
      exact ⟨t, rfl, rfl⟩

/-- C10: every candidate enters the worker pool with `isActive = true`,
and a record ends up inactive only through an affirmative staleness
determination — if the resolved record is inactive, its last-activity
timestamp was set (non-zero) and its computed day count strictly exceeds
the stale threshold (scanner.go lines 162-166 and 215-241). -/
theorem C10_inactive_only_by_staleness (ii : Bool) (dd : List String)
    (raws : List (Option RawDep)) (thr : Int) (env : ResolveEnv)
    (dep : Dependency) (hmem : dep ∈ (processRecords ii dd raws).1)
    (hinactive : (checkMaintenanceStatus thr env dep).isActive = false) :
    dep.isActive = true
    ∧ (checkMaintenanceStatus thr env dep).lastCommitTime ≠ none
    ∧ thr < (checkMaintenanceStatus thr env dep).daysSinceLastCommit := by
  have hactive : dep.isActive = true := mem_processRecords_isActive hmem
  refine ⟨hactive, ?_⟩
  rcases checkMaintenanceStatus_spec thr env dep with hspec | ⟨t, _, hspec⟩
  · rw [hspec] at hinactive
    simp at hinactive
  · rw [hspec] at hinactive ⊢
    simp only at hinactive ⊢
    by_cases hs : isStale thr (Int.tdiv (env.nowHours - t) 24)
    · rw [if_pos hs] at hinactive ⊢
      refine ⟨by simp, ?_⟩
      simpa [isStale] using hs
    · rw [if_neg hs] at hinactive
      simp only at hinactive
      rw [hactive] at hinactive
      cases hinactive

/-- Witness for C10: a candidate with a pseudo-version whose commit is 100
days old against a 30-day threshold ends up inactive with a set timestamp. -/
theorem C10_inactive_only_by_staleness_witness :
    stalePoolCandidate.isActive = true
    ∧ (checkMaintenanceStatus 30 sampleResolveEnv stalePoolCandidate).lastCommitTime ≠ none
    ∧ (30 : Int) < (checkMaintenanceStatus 30 sampleResolveEnv stalePoolCandidate).daysSinceLastCommit :=
  C10_inactive_only_by_staleness true [] 
    [some { path := "example.com/mod", version := "v0.0.0-20240101abcdef123456", main := false }]
    30 sampleResolveEnv stalePoolCandidate (by decide) (by decide)

/-- C1 (code bug): with `includeIndirect` disabled and a failed direct-set
lookup, `Scan` falls back to the EMPTY direct set (scanner.go line 123),
so the filter `!directDeps[dep.Path]` (line 158) is true for every path
and every dependency is skipped — the single non-main record produces no
output record, not one, contradicting the spec and the code's own log
message "will scan all" (line 122).  The third conjunct shows that with
the path actually in the direct set the record is produced, isolating the
empty-set fallback as the cause. -/
theorem C1_failed_direct_lookup_excludes_all :
    (processRecords false []
      [some { path := "github.com/spf13/cobra", version := "v1.8.0", main := false }]).1 = []
    ∧ ScanExec sampleConfig c1env []
        = .ok { dependencies := [], total := 0, inactive := 0, errors := 0,
                staleThresholdDays := 30 }
    ∧ (processRecords false ["github.com/spf13/cobra"]
        [some { path := "github.com/spf13/cobra", version := "v1.8.0", main := false }]).1.length
        = 1 :=
  ⟨rfl, rfl, rfl⟩

/-- C5 counterexample: `Scan` also returns an error when the
`go list -json -m all` subprocess fails (scanner.go lines 131-135), even
though `go.mod` exists — refuting "returns an error if and only if the
module descriptor is absent". -/
theorem C5_counterexample_list_failure :
    c5env.goModExists = true
    ∧ ScanExec sampleConfig c5env [] = .error "failed to list dependencies" :=
  ⟨rfl, rfl⟩

/-- C5 amended: `Scan` fails exactly when `go.mod` is absent or the
dependency-listing subprocess fails, with the `go.mod` check performed
first; per-record decode failures and the direct-set lookup failure are
recovered from (scanner.go lines 108-175). -/
theorem C5_amended_scan_error_conditions (cfg : ScannerConfig) (env : ScanEnv)
    (trace : List (Nat × Dependency)) :
    (scanFails (ScanExec cfg env trace) = true
      ↔ (env.goModExists = false ∨ env.listResult = none))
    ∧ (env.goModExists = false → ScanExec cfg env trace = .error "go.mod not found") := by
  constructor
  · constructor
    · intro h
      by_cases hg : env.goModExists = false
      · exact Or.inl hg
      · right
        unfold ScanExec at h
        rw [if_neg hg] at h
        cases henv : env.listResult with
        | none => rfl
        | some raws =>
            rw [henv] at h
            cases hdd : env.directDepsResult with
            | none => rw [hdd] at h; simp [scanFails] at h
            | some l => rw [hdd] at h; simp [scanFails] at h
    · intro h
      rcases h with hg | hl
      · unfold ScanExec
        rw [if_pos hg]
        rfl
      · unfold ScanExec
        by_cases hg : env.goModExists = false
        · rw [if_pos hg]
          rfl
        · rw [if_neg hg, hl]
          rfl
  · intro hg
    unfold ScanExec
    rw [if_pos hg]

/-- Witness for the amended C5 at a concrete environment with no
`go.mod`. -/
theorem C5_amended_scan_error_conditions_witness :
    scanFails (ScanExec sampleConfig c5envNoMod []) = true
    ∧ ScanExec sampleConfig c5envNoMod [] = .error "go.mod not found" :=
  ⟨(C5_amended_scan_error_conditions sampleConfig c5envNoMod []).1.mpr (Or.inl rfl),
   (C5_amended_scan_error_conditions sampleConfig c5envNoMod []).2 rfl⟩

/-- C4 counterexample: for a tagged version with no extractable revision
hash, `getCommitTime` returns the current wall-clock time WITHOUT an
error (scanner.go lines 296-299), so `checkMaintenanceStatus` sets the
record's timestamp to now (line 232) instead of leaving it at the zero
value — the record is not distinguishable by its timestamp from one whose
activity was verified. -/
theorem C4_counterexample_no_hash_sets_now :
    extractCommitHash sampleCandidate.version = ""
    ∧ (checkMaintenanceStatus 30 sampleResolveEnv sampleCandidate).lastCommitTime = some 2400
    ∧ (checkMaintenanceStatus 30 sampleResolveEnv sampleCandidate).isActive = true := by
  refine ⟨?_, ?_, ?_⟩ <;> decide

/-- C4 amended: when the repository-info lookup fails, or the commit-time
lookup returns an error (temp-dir creation, revision query, or timestamp
parse failing), the record is marked active with every other field — in
particular the zero timestamp — left untouched; but when no revision hash
can be extracted from the version, the commit-time lookup succeeds with
the current wall-clock time, so the record keeps its activity flag (for
any threshold ≥ 0) with its timestamp SET to now and a day count of zero
(scanner.go lines 215-241 and 295-299). -/
theorem C4_amended_unverified_handling (thr : Int) (env : ResolveEnv) (dep : Dependency) :
    (env.repoInfoOk = false →
      checkMaintenanceStatus thr env dep = { dep with isActive := true })
    ∧ (getCommitTime env (extractCommitHash dep.version) = .error () →
        checkMaintenanceStatus thr env dep = { dep with isActive := true })
    ∧ (env.repoInfoOk = true → extractCommitHash dep.version = "" → 0 ≤ thr →
        checkMaintenanceStatus thr env dep
          = { dep with lastCommitTime := some env.nowHours, daysSinceLastCommit := 0 }) := by
  refine ⟨?_, ?_, ?_⟩
  · intro hr
    unfold checkMaintenanceStatus
    rw [if_pos hr]
  · intro hct
    unfold checkMaintenanceStatus
    by_cases hr : env.repoInfoOk = false
    · rw [if_pos hr]
    · rw [if_neg hr, hct]
  · intro hr hhash hthr
    unfold checkMaintenanceStatus
    have hr2 : ¬ env.repoInfoOk = false := by simp [hr]
    rw [if_neg hr2, hhash]
    unfold getCommitTime
    rw [if_pos rfl]
    have hs : isStale thr (Int.tdiv (env.nowHours - env.nowHours) 24) = false := by
      simp [isStale, sub_self, Int.zero_tdiv]
      omega
    simp only [sub_self, Int.zero_tdiv]
    simp only [sub_self, Int.zero_tdiv] at hs
    rw [hs]
    simp

/-- Witness for the amended C4 at concrete failure and no-hash inputs. -/
theorem C4_amended_unverified_handling_witness :
    checkMaintenanceStatus 30 failingRepoEnv sampleCandidate2
      = { sampleCandidate2 with isActive := true }
    ∧ checkMaintenanceStatus 30 sampleResolveEnv sampleCandidate
      = { sampleCandidate with lastCommitTime := some 2400, daysSinceLastCommit := 0 } :=
  ⟨(C4_amended_unverified_handling 30 failingRepoEnv sampleCandidate2).1 rfl,
   (C4_amended_unverified_handling 30 sampleResolveEnv sampleCandidate).2.2
     rfl (by decide) (by decide)⟩

/-- C9 (spec-modelled, see `getGoProxyURLs`): endpoint-list parsing — the
empty list and a pure "direct" list fall back to exactly one default
endpoint; a two-entry list parses in order; a trailing slash is stripped;
entries are trimmed; a "direct" entry among others is skipped leaving the
rest. -/
theorem C9_proxy_endpoint_parsing :
    getGoProxyURLs "" = [defaultGoProxyURL]
    ∧ getGoProxyURLs "direct" = [defaultGoProxyURL]
    ∧ getGoProxyURLs "a,b" = ["a", "b"]
    ∧ getGoProxyURLs "a/" = ["a"]
    ∧ getGoProxyURLs "a , b" = ["a", "b"]
    ∧ getGoProxyURLs "a,direct" = ["a"] := by
  refine ⟨?_, ?_, ?_, ?_, ?_, ?_⟩ <;> decide

end Govital
